import Mathlib

/-!
Verification of the Expense Ledger core of `src/components/StudentFinanceManager.tsx`.

The component's only behavioural logic is:
  * `addExpense` — validates the three form fields and appends an `Expense`;
  * `totalSpent` — `expenses.reduce((sum, e) => sum + e.amount, 0)`;
  * `isWithinBudget` — `totalSpent <= monthlyBudget`;
  * the rendered over-budget amount `totalSpent - monthlyBudget`;
  * the rendered usage percentage `Math.min(100, Math.round((totalSpent / monthlyBudget) * 100))`.

JavaScript numbers are embedded as `JSNum`: an exact rational together with the
IEEE-754 special values `NaN`, `+Infinity`, `-Infinity`.  The idealisation keeps
decimal values exact (no rounding to binary64, no overflow of huge literals to
Infinity, and signed zero is collapsed to `0`); every order/sign/specials
behaviour the claims depend on is preserved exactly.
-/

namespace StudentFinance

/-- An idealised JavaScript number: an exact rational, or one of the IEEE-754
special values `NaN`, `+Infinity`, `-Infinity`. -/
inductive JSNum where
  | nan : JSNum
  | posInf : JSNum
  | negInf : JSNum
  | finite : ℚ → JSNum
deriving DecidableEq

/-- JavaScript `isNaN` on an already-converted number. -/
def JSNum.isNaN : JSNum → Bool
  | .nan => true
  | _ => false

/-- JavaScript `+` on numbers (`Infinity + (-Infinity)` is `NaN`). -/
def JSNum.add : JSNum → JSNum → JSNum
  | .nan, _ => .nan
  | _, .nan => .nan
  | .posInf, .negInf => .nan
  | .negInf, .posInf => .nan
  | .posInf, _ => .posInf
  | _, .posInf => .posInf
  | .negInf, _ => .negInf
  | _, .negInf => .negInf
  | .finite a, .finite b => .finite (a + b)

/-- JavaScript `-` on numbers. -/
def JSNum.sub : JSNum → JSNum → JSNum
  | .nan, _ => .nan
  | _, .nan => .nan
  | .posInf, .posInf => .nan
  | .negInf, .negInf => .nan
  | .posInf, _ => .posInf
  | _, .posInf => .negInf
  | .negInf, _ => .negInf
  | _, .negInf => .posInf
  | .finite a, .finite b => .finite (a - b)

/-- JavaScript `*` on numbers (`0 * Infinity` is `NaN`). -/
def JSNum.mul : JSNum → JSNum → JSNum
  | .nan, _ => .nan
  | _, .nan => .nan
  | .posInf, .posInf => .posInf
  | .posInf, .negInf => .negInf
  | .negInf, .posInf => .negInf
  | .negInf, .negInf => .posInf
  | .posInf, .finite b => if b = 0 then .nan else if b < 0 then .negInf else .posInf
  | .finite a, .posInf => if a = 0 then .nan else if a < 0 then .negInf else .posInf
  | .negInf, .finite b => if b = 0 then .nan else if b < 0 then .posInf else .negInf
  | .finite a, .negInf => if a = 0 then .nan else if a < 0 then .posInf else .negInf
  | .finite a, .finite b => .finite (a * b)

/-- JavaScript `/` on numbers (signed zero collapsed to `0`;
division of a nonzero finite value by `0` yields an infinity). -/
def JSNum.div : JSNum → JSNum → JSNum
  | .nan, _ => .nan
  | _, .nan => .nan
  | .posInf, .posInf => .nan
  | .posInf, .negInf => .nan
  | .negInf, .posInf => .nan
  | .negInf, .negInf => .nan
  | .posInf, .finite b => if b < 0 then .negInf else .posInf
  | .negInf, .finite b => if b < 0 then .posInf else .negInf
  | .finite _, .posInf => .finite 0
  | .finite _, .negInf => .finite 0
  | .finite a, .finite b =>
      if b = 0 then (if 0 < a then .posInf else if a < 0 then .negInf else .nan)
      else .finite (a / b)

/-- JavaScript `<=`: any comparison with `NaN` is false. -/
def JSNum.le : JSNum → JSNum → Bool
  | .nan, _ => false
  | _, .nan => false
  | .negInf, _ => true
  | _, .posInf => true
  | .posInf, _ => false
  | _, .negInf => false
  | .finite a, .finite b => decide (a ≤ b)

/-- JavaScript `<`: any comparison with `NaN` is false. -/
def JSNum.lt : JSNum → JSNum → Bool
  | .nan, _ => false
  | _, .nan => false
  | .negInf, .negInf => false
  | .negInf, _ => true
  | _, .negInf => false
  | .posInf, _ => false
  | _, .posInf => true
  | .finite a, .finite b => decide (a < b)

/-- JavaScript `Math.round` (half-way cases round toward `+Infinity`). -/
def JSNum.round : JSNum → JSNum
  | .nan => .nan
  | .posInf => .posInf
  | .negInf => .negInf
  | .finite a => .finite ((⌊a + 1 / 2⌋ : ℤ) : ℚ)

/-- JavaScript `Math.min` of two numbers (`NaN` if either operand is `NaN`). -/
def JSNum.min (a b : JSNum) : JSNum :=
  if a.isNaN ∨ b.isNaN then .nan else if a.le b then a else b

/-! ## parseFloat

ECMAScript `parseFloat`: skip leading whitespace, then take the longest prefix
matching `StrDecimalLiteral` (optional sign, then `Infinity` or a decimal
mantissa with optional exponent); `NaN` if no such prefix exists.  The decimal
value is kept exact in `ℚ`.
-/

/-- ASCII decimal digit test. -/
def isAsciiDigit (c : Char) : Bool := '0' ≤ c && c ≤ '9'

/-- Whitespace skipped by `parseFloat` (the common ASCII white space). -/
def jsWhitespace (c : Char) : Bool :=
  c = ' ' || c = '\t' || c = '\n' || c = '\r' || c = '\x0b' || c = '\x0c'

/-- Split a character list into its longest leading run of digits and the rest. -/
def takeDigits : List Char → List Char × List Char
  | [] => ([], [])
  | c :: cs =>
      if isAsciiDigit c then
        let (ds, rest) := takeDigits cs
        (c :: ds, rest)
      else ([], c :: cs)

/-- Numeric value of a digit run, most significant first. -/
def digitsVal (ds : List Char) : ℕ :=
  ds.foldl (fun n c => 10 * n + (c.toNat - 48)) 0

/-- Parse an optional exponent part (`e`/`E`, optional sign, digits) after the
mantissa; an `e` not followed by digits is not part of the literal, so it
contributes exponent `0`, exactly as the longest-valid-prefix rule dictates. -/
def parseExponent : List Char → Int
  | c :: cs =>
      if c = 'e' ∨ c = 'E' then
        match cs with
        | '+' :: cs2 =>
            let (ds, _) := takeDigits cs2
            if ds.isEmpty then 0 else (digitsVal ds : Int)
        | '-' :: cs2 =>
            let (ds, _) := takeDigits cs2
            if ds.isEmpty then 0 else -(digitsVal ds : Int)
        | cs2 =>
            let (ds, _) := takeDigits cs2
            if ds.isEmpty then 0 else (digitsVal ds : Int)
      else 0
  | [] => 0

/-- Parse the unsigned decimal mantissa `digits [. digits]` followed by an
optional exponent; the result `(m, f, e)` describes the value
`m / 10 ^ f * 10 ^ e` (all mantissa digits are collected into the single
natural number `m`, with `f` of them after the point).  `none` when there is
no digit at all (then the whole literal is invalid). -/
def parseMantissa (cs : List Char) : Option (ℕ × ℕ × Int) :=
  let p := takeDigits cs
  match p.2 with
  | '.' :: rest2 =>
      let q := takeDigits rest2
      if p.1.isEmpty ∧ q.1.isEmpty then none
      else
        some (digitsVal p.1 * 10 ^ q.1.length + digitsVal q.1, q.1.length,
          parseExponent q.2)
  | _ => if p.1.isEmpty then none else some (digitsVal p.1, 0, parseExponent p.2)

/-- Scale a mantissa by a decimal exponent. -/
def applyExponent (m : ℚ) (e : Int) : ℚ :=
  if 0 ≤ e then m * (10 : ℚ) ^ e.toNat else m / (10 : ℚ) ^ (-e).toNat

/-- Exact rational value of a parsed decimal literal with sign `neg`,
mantissa digits `m`, `f` of which sit after the decimal point, and decimal
exponent `e`. -/
def litVal (neg : Bool) (m f : ℕ) (e : Int) : ℚ :=
  let v := applyExponent ((m : ℚ) / (10 : ℚ) ^ f) e
  if neg then -v else v

/-- Parse the part of a `StrDecimalLiteral` after the optional sign. -/
def parseUnsigned (neg : Bool) (cs : List Char) : JSNum :=
  if cs.take 8 = "Infinity".toList then (if neg then .negInf else .posInf)
  else
    match parseMantissa cs with
    | none => .nan
    | some (m, f, e) => .finite (litVal neg m f e)

/-- ECMAScript `parseFloat` on a string. -/
def parseFloat (s : String) : JSNum :=
  match s.toList.dropWhile jsWhitespace with
  | '+' :: rest => parseUnsigned false rest
  | '-' :: rest => parseUnsigned true rest
  | cs => parseUnsigned false cs

/-! ## Data model and operations of the component -/

/-- JavaScript `Number.prototype.toString` on a nonnegative integer, as used
for `Date.now().toString()`: the decimal digit string. -/
def natToString (n : ℕ) : String :=
  if n = 0 then "0"
  else String.mk (((Nat.digits 10 n).map fun d => Char.ofNat (48 + d)).reverse)

/-- The `Expense` interface of the component.  `date` is the millisecond
timestamp at creation (`new Date()` under the `Date.now()` clock). -/
structure Expense where
  id : String
  name : String
  amount : JSNum
  category : String
  date : ℕ
deriving DecidableEq

/-- The fixed category list of the component. -/
def categories : List String :=
  ["Food", "Transportation", "Entertainment", "Education", "Healthcare", "Shopping", "Other"]

/-- The fixed `monthlyBudget` state value. -/
def monthlyBudget : ℚ := 5000

/-- Observable outcome of one `addExpense` call: which toast was raised, or
the created expense on success. -/
inductive AddResult where
  | missingField
  | invalidAmount
  | added (e : Expense)
deriving DecidableEq

/-- The `addExpense` handler.  `now` is the value of `Date.now()` at the call;
the three strings are the current form-field state (`!s` on a JS string is
truth-testing, i.e. the emptiness test); `expenses` is the current list state.
Returns the new `expenses` state and the outcome (on success the component
also clears the three form fields, which no claim concerns).  The source's
local `const amount = parseFloat(expenseAmount)` is inlined at its three use
sites. -/
def addExpense (now : ℕ) (expenseName expenseAmount expenseCategory : String)
    (expenses : List Expense) : List Expense × AddResult :=
  if expenseName = "" ∨ expenseAmount = "" ∨ expenseCategory = "" then
    (expenses, .missingField)
  else
    if (parseFloat expenseAmount).isNaN || (parseFloat expenseAmount).le (.finite 0) then
      (expenses, .invalidAmount)
    else
      (expenses ++
          [{ id := natToString now, name := expenseName, amount := parseFloat expenseAmount,
             category := expenseCategory, date := now }],
        .added
          { id := natToString now, name := expenseName, amount := parseFloat expenseAmount,
            category := expenseCategory, date := now })

/-- `totalSpent`: `expenses.reduce((sum, expense) => sum + expense.amount, 0)`. -/
def totalSpent (expenses : List Expense) : JSNum :=
  expenses.foldl (fun sum e => sum.add e.amount) (.finite 0)

/-- `isWithinBudget`: `totalSpent <= monthlyBudget`. -/
def isWithinBudget (expenses : List Expense) : Bool :=
  (totalSpent expenses).le (.finite monthlyBudget)

/-- The over-budget amount the component renders when not within budget:
`totalSpent - monthlyBudget`. -/
def overBudgetAmount (expenses : List Expense) : JSNum :=
  (totalSpent expenses).sub (.finite monthlyBudget)

/-- The unclamped budget usage fraction `totalSpent / monthlyBudget`
(the spec's internal usage quotient). -/
def budgetUsage (expenses : List Expense) : JSNum :=
  (totalSpent expenses).div (.finite monthlyBudget)

/-- The rendered usage percentage:
`Math.min(100, Math.round((totalSpent / monthlyBudget) * 100))`. -/
def budgetUsagePercent (expenses : List Expense) : JSNum :=
  JSNum.min (.finite 100) (((totalSpent expenses).div (.finite monthlyBudget)).mul (.finite 100)).round

/-- One user interaction: fill the three form fields and press Add while the
clock reads `now`. -/
structure AddOp where
  now : ℕ
  name : String
  amountText : String
  category : String

/-- Run a sequence of Add interactions against the ledger state. -/
def runAdds (ops : List AddOp) (expenses : List Expense) : List Expense :=
  ops.foldl (fun es op => (addExpense op.now op.name op.amountText op.category es).1) expenses

/-- The argument `addExpense` accepts: not `NaN` and not `<= 0` in the
JavaScript order.  (Note `+Infinity` satisfies this.) -/
def validAmount (a : JSNum) : Prop :=
  a.isNaN = false ∧ a.le (.finite 0) = false

instance (a : JSNum) : Decidable (validAmount a) := by
  unfold validAmount; infer_instance

/-- An expense that passed `addExpense` validation: accepted amount and
non-empty name and category. -/
def ValidEntry (e : Expense) : Prop :=
  validAmount e.amount ∧ e.name ≠ "" ∧ e.category ≠ ""

/-- A `JSNum` that is `+Infinity` or a nonnegative rational (the possible
shapes of a ledger total). -/
def NonnegNum (a : JSNum) : Prop :=
  a = .posInf ∨ ∃ q : ℚ, a = .finite q ∧ 0 ≤ q

/-- A `JSNum` that is `+Infinity` or a strictly positive rational (the
possible shapes of an accepted amount, and of a nonempty ledger's total). -/
def PosTotal (a : JSNum) : Prop :=
  a = .posInf ∨ ∃ q : ℚ, a = .finite q ∧ 0 < q

/-- Compact name for the record a successful `addExpense` appends. -/
def newExpense (now : ℕ) (n a c : String) : Expense :=
  { id := natToString now, name := n, amount := parseFloat a, category := c, date := now }

/-- The spec's scenario ledger: 200 spent on Food, then 4900 on Shopping
(total 5100, over the 5000 ceiling). -/
def demoLedger : List Expense :=
  [{ id := "1", name := "Lunch", amount := .finite 200, category := "Food", date := 1 },
   { id := "2", name := "Phone", amount := .finite 4900, category := "Shopping", date := 2 }]

/-! ## Helper lemmas -/

lemma digitChar_inj : ∀ d1 < 10, ∀ d2 < 10,
    Char.ofNat (48 + d1) = Char.ofNat (48 + d2) → d1 = d2 := by decide

lemma digitsMap_inj : ∀ ds1 ds2 : List ℕ, (∀ d ∈ ds1, d < 10) → (∀ d ∈ ds2, d < 10) →
    ds1.map (fun d => Char.ofNat (48 + d)) = ds2.map (fun d => Char.ofNat (48 + d)) →
    ds1 = ds2
  | [], [], _, _, _ => rfl
  | [], _ :: _, _, _, h => by simp at h
  | _ :: _, [], _, _, h => by simp at h
  | d1 :: ds1, d2 :: ds2, h1, h2, h => by
      simp only [List.map_cons, List.cons.injEq] at h
      have hd := digitChar_inj d1 (h1 d1 (List.mem_cons_self _ _)) d2
        (h2 d2 (List.mem_cons_self _ _)) h.1
      have ht := digitsMap_inj ds1 ds2 (fun d hd => h1 d (List.mem_cons_of_mem _ hd))
        (fun d hd => h2 d (List.mem_cons_of_mem _ hd)) h.2
      rw [hd, ht]

lemma natToString_inj : Function.Injective natToString := by
  intro m n h
  unfold natToString at h
  by_cases hm : m = 0 <;> by_cases hn : n = 0
  · rw [hm, hn]
  · rw [if_pos hm, if_neg hn] at h
    have h' : (List.map (fun d => Char.ofNat (48 + d)) (Nat.digits 10 n)).reverse = ['0'] := by
      have := congrArg String.data h
      simpa using this.symm
    have h2 : List.map (fun d => Char.ofNat (48 + d)) (Nat.digits 10 n) = ['0'] := by
      simpa [List.reverse_eq_iff] using h'
    have h3 : Nat.digits 10 n = [0] :=
      digitsMap_inj _ [0] (fun d hd => Nat.digits_lt_base (by norm_num) hd)
        (by simp) (by simpa using h2)
    have := Nat.ofDigits_digits 10 n
    rw [h3] at this
    simp [Nat.ofDigits] at this
    exact absurd this.symm hn
  · rw [if_neg hm, if_pos hn] at h
    have h' : (List.map (fun d => Char.ofNat (48 + d)) (Nat.digits 10 m)).reverse = ['0'] := by
      have := congrArg String.data h
      simpa using this
    have h2 : List.map (fun d => Char.ofNat (48 + d)) (Nat.digits 10 m) = ['0'] := by
      simpa [List.reverse_eq_iff] using h'
    have h3 : Nat.digits 10 m = [0] :=
      digitsMap_inj _ [0] (fun d hd => Nat.digits_lt_base (by norm_num) hd)
        (by simp) (by simpa using h2)
    have := Nat.ofDigits_digits 10 m
    rw [h3] at this
    simp [Nat.ofDigits] at this
    exact absurd this.symm hm
  · rw [if_neg hm, if_neg hn] at h
    have h1 : (List.map (fun d => Char.ofNat (48 + d)) (Nat.digits 10 m)).reverse =
        (List.map (fun d => Char.ofNat (48 + d)) (Nat.digits 10 n)).reverse := by
      have := congrArg String.data h
      simpa using this
    have h2 : Nat.digits 10 m = Nat.digits 10 n :=
      digitsMap_inj _ _ (fun d hd => Nat.digits_lt_base (by norm_num) hd)
        (fun d hd => Nat.digits_lt_base (by norm_num) hd)
        (List.reverse_injective h1)
    have := Nat.ofDigits_digits 10 m
    rw [h2, Nat.ofDigits_digits] at this
    exact this.symm

lemma validAmount_cases {a : JSNum} (h : validAmount a) : PosTotal a := by
  obtain ⟨h1, h2⟩ := h
  cases a with
  | nan => simp [JSNum.isNaN] at h1
  | posInf => exact Or.inl rfl
  | negInf => simp [JSNum.le] at h2
  | finite q =>
      refine Or.inr ⟨q, rfl, ?_⟩
      have : ¬ q ≤ 0 := by simpa [JSNum.le] using h2
      exact lt_of_not_le this

lemma add_shape {a b : JSNum} (ha : NonnegNum a) (hb : PosTotal b) :
    NonnegNum (a.add b) := by
  rcases ha with ha | ⟨qa, ha, hqa⟩ <;> rcases hb with hb | ⟨qb, hb, hqb⟩ <;>
      subst ha <;> subst hb
  · exact Or.inl rfl
  · exact Or.inl rfl
  · exact Or.inl rfl
  · exact Or.inr ⟨qa + qb, rfl, by positivity⟩

lemma foldl_add_shape : ∀ (es : List Expense), (∀ e ∈ es, validAmount e.amount) →
    ∀ a : JSNum, NonnegNum a → NonnegNum (es.foldl (fun s e => s.add e.amount) a)
  | [], _, _, ha => ha
  | e :: es, h, a, ha => by
      simp only [List.foldl_cons]
      exact foldl_add_shape es (fun e' he' => h e' (List.mem_cons_of_mem _ he')) _
        (add_shape ha (validAmount_cases (h e (List.mem_cons_self _ _))))

lemma totalSpent_shape {es : List Expense} (h : ∀ e ∈ es, validAmount e.amount) :
    NonnegNum (totalSpent es) :=
  foldl_add_shape es h _ (Or.inr ⟨0, rfl, le_refl 0⟩)

lemma foldl_add_finite {es : List Expense} {qs : List ℚ}
    (h : es.map Expense.amount = qs.map JSNum.finite) :
    ∀ a : ℚ, es.foldl (fun s e => s.add e.amount) (JSNum.finite a) = .finite (a + qs.sum) := by
  induction es generalizing qs with
  | nil =>
      cases qs with
      | nil => intro a; simp
      | cons q qs => simp at h
  | cons e es ih =>
      cases qs with
      | nil => simp at h
      | cons q qs =>
          simp only [List.map_cons, List.cons.injEq] at h
          intro a
          have hstep : List.foldl (fun s e => s.add e.amount) (JSNum.finite a) (e :: es) =
              List.foldl (fun s e => s.add e.amount) (JSNum.finite (a + q)) es := by
            rw [List.foldl_cons]
            congr 1
            show (JSNum.finite a).add e.amount = _
            rw [h.1]
            rfl
          rw [hstep, ih h.2 (a + q), List.sum_cons]
          congr 1
          ring

lemma totalSpent_finite {es : List Expense} {qs : List ℚ}
    (h : es.map Expense.amount = qs.map JSNum.finite) :
    totalSpent es = .finite qs.sum := by
  unfold totalSpent
  rw [foldl_add_finite h 0, zero_add]

lemma parseFloat_empty : parseFloat "" = .nan := rfl

lemma addExpense_missing {now : ℕ} {n a c : String} {es : List Expense}
    (h : n = "" ∨ a = "" ∨ c = "") :
    addExpense now n a c es = (es, .missingField) := by
  unfold addExpense
  rw [if_pos h]

lemma addExpense_invalid {now : ℕ} {n a c : String} {es : List Expense}
    (hne : ¬(n = "" ∨ a = "" ∨ c = ""))
    (hbad : (parseFloat a).isNaN = true ∨ (parseFloat a).le (.finite 0) = true) :
    addExpense now n a c es = (es, .invalidAmount) := by
  unfold addExpense
  rw [if_neg hne, if_pos (by rcases hbad with hb | hb <;> simp [hb])]

lemma addExpense_success {now : ℕ} {n a c : String} {es : List Expense}
    (hn : n ≠ "") (hc : c ≠ "") (hva : validAmount (parseFloat a)) :
    addExpense now n a c es =
      (es ++ [newExpense now n a c], .added (newExpense now n a c)) := by
  have ha : a ≠ "" := by
    intro h0
    rw [h0, parseFloat_empty] at hva
    exact absurd hva.1 (by decide)
  unfold addExpense
  rw [if_neg (by simp [hn, ha, hc]), if_neg (by simp [hva.1, hva.2])]
  rfl

lemma addExpense_fst (now : ℕ) (n a c : String) (es : List Expense) :
    (addExpense now n a c es).1 = es ∨
      ((addExpense now n a c es).1 = es ++ [newExpense now n a c] ∧
        n ≠ "" ∧ c ≠ "" ∧ validAmount (parseFloat a)) := by
  by_cases h1 : n = "" ∨ a = "" ∨ c = ""
  · rw [addExpense_missing h1]
    exact Or.inl rfl
  · by_cases h2 : (parseFloat a).isNaN = true ∨ (parseFloat a).le (.finite 0) = true
    · rw [addExpense_invalid h1 h2]
      exact Or.inl rfl
    · push_neg at h1 h2
      have hva : validAmount (parseFloat a) :=
        ⟨Bool.not_eq_true _ ▸ h2.1, Bool.not_eq_true _ ▸ h2.2⟩
      rw [addExpense_success h1.1 h1.2.2 hva]
      exact Or.inr ⟨rfl, h1.1, h1.2.2, hva⟩

lemma runAdds_valid : ∀ (ops : List AddOp) (es : List Expense),
    (∀ e ∈ es, ValidEntry e) → ∀ e ∈ runAdds ops es, ValidEntry e
  | [], _, h => h
  | op :: ops, es, h => by
      show ∀ e ∈ runAdds ops (addExpense op.now op.name op.amountText op.category es).1,
        ValidEntry e
      rcases addExpense_fst op.now op.name op.amountText op.category es with
        hc | ⟨hc, hn, hcat, hva⟩
      · rw [hc]
        exact runAdds_valid ops es h
      · rw [hc]
        refine runAdds_valid ops _ ?_
        intro e he
        rcases List.mem_append.mp he with he | he
        · exact h e he
        · rw [List.mem_singleton.mp he]
          exact ⟨hva, hn, hcat⟩

lemma runAdds_pairwise_ids : ∀ (ops : List AddOp) (es : List Expense),
    ops.Pairwise (fun o1 o2 => o1.now ≠ o2.now) →
    (∀ e ∈ es, ∀ op ∈ ops, e.id ≠ natToString op.now) →
    es.Pairwise (fun e1 e2 => e1.id ≠ e2.id) →
    (runAdds ops es).Pairwise (fun e1 e2 => e1.id ≠ e2.id)
  | [], _, _, _, hes => hes
  | op :: ops, es, hops, hfresh, hes => by
      show ((runAdds ops (addExpense op.now op.name op.amountText op.category es).1).Pairwise
        fun e1 e2 => e1.id ≠ e2.id)
      have hops' := (List.pairwise_cons.mp hops).2
      have hopshead := (List.pairwise_cons.mp hops).1
      rcases addExpense_fst op.now op.name op.amountText op.category es with
        hc | ⟨hc, -, -, -⟩
      · rw [hc]
        exact runAdds_pairwise_ids ops es hops'
          (fun e he op' hop' => hfresh e he op' (List.mem_cons_of_mem _ hop')) hes
      · rw [hc]
        refine runAdds_pairwise_ids ops _ hops' ?_ ?_
        · intro e he op' hop'
          rcases List.mem_append.mp he with he | he
          · exact hfresh e he op' (List.mem_cons_of_mem _ hop')
          · rw [List.mem_singleton.mp he]
            show natToString op.now ≠ natToString op'.now
            exact fun heq => hopshead op' hop' (natToString_inj heq)
        · rw [List.pairwise_append]
          refine ⟨hes, List.pairwise_singleton _ _, ?_⟩
          intro e he e' he'
          rw [List.mem_singleton.mp he']
          exact hfresh e he op (List.mem_cons_self _ _)

lemma pos_total_nonneg {a : JSNum} (h : PosTotal a) : NonnegNum a := by
  rcases h with h | ⟨q, h, hq⟩
  · exact Or.inl h
  · exact Or.inr ⟨q, h, le_of_lt hq⟩

lemma add_pos_total {a b : JSNum} (ha : NonnegNum a) (hb : PosTotal b) :
    PosTotal (a.add b) := by
  rcases ha with ha | ⟨qa, ha, hqa⟩ <;> rcases hb with hb | ⟨qb, hb, hqb⟩ <;>
      subst ha <;> subst hb
  · exact Or.inl rfl
  · exact Or.inl rfl
  · exact Or.inl rfl
  · exact Or.inr ⟨qa + qb, rfl, by positivity⟩

lemma foldl_add_pos : ∀ (es : List Expense), (∀ e ∈ es, validAmount e.amount) →
    ∀ a : JSNum, PosTotal a → PosTotal (es.foldl (fun s e => s.add e.amount) a)
  | [], _, _, ha => ha
  | e :: es, h, a, ha => by
      simp only [List.foldl_cons]
      exact foldl_add_pos es (fun e' he' => h e' (List.mem_cons_of_mem _ he')) _
        (add_pos_total (pos_total_nonneg ha) (validAmount_cases (h e (List.mem_cons_self _ _))))

lemma totalSpent_pos {es : List Expense} (hne : es ≠ [])
    (h : ∀ e ∈ es, validAmount e.amount) : PosTotal (totalSpent es) := by
  cases es with
  | nil => exact absurd rfl hne
  | cons e es =>
      show PosTotal (es.foldl (fun s e => s.add e.amount) ((JSNum.finite 0).add e.amount))
      exact foldl_add_pos es (fun e' he' => h e' (List.mem_cons_of_mem _ he')) _
        (add_pos_total (Or.inr ⟨0, rfl, le_refl 0⟩)
          (validAmount_cases (h e (List.mem_cons_self _ _))))

lemma validAmount_of_pos {a : String} {q : ℚ} (hq : parseFloat a = .finite q)
    (hpos : 0 < q) : validAmount (parseFloat a) := by
  rw [hq]
  refine ⟨rfl, ?_⟩
  simp only [JSNum.le, decide_eq_false_iff_not]
  exact not_le.mpr hpos

/-! ## Claims -/

/-- C1: for every valid input triple — non-empty name, amount text parsing to
a positive finite number, non-empty category — `addExpense` succeeds and the
entries list grows by exactly one element, appended at the end, whose name,
amount and category fields equal the given inputs; all previously present
entries are unchanged (the old list is a prefix of the new one). -/
theorem addExpense_valid_appends (now : ℕ) (n a c : String) (es : List Expense) (q : ℚ)
    (hn : n ≠ "") (hc : c ≠ "") (hq : parseFloat a = .finite q) (hpos : 0 < q) :
    (addExpense now n a c es).2 = .added (newExpense now n a c) ∧
    (addExpense now n a c es).1 = es ++ [newExpense now n a c] ∧
    (newExpense now n a c).name = n ∧
    (newExpense now n a c).amount = .finite q ∧
    (newExpense now n a c).category = c := by
  rw [addExpense_success hn hc (validAmount_of_pos hq hpos)]
  exact ⟨rfl, rfl, rfl, hq, rfl⟩

/-- C1 witness: adding (Lunch, "200", Food) to the empty ledger. -/
theorem addExpense_valid_appends_witness :
    (addExpense 0 "Lunch" "200" "Food" []).2 = .added (newExpense 0 "Lunch" "200" "Food") ∧
    (addExpense 0 "Lunch" "200" "Food" []).1 = [] ++ [newExpense 0 "Lunch" "200" "Food"] ∧
    (newExpense 0 "Lunch" "200" "Food").name = "Lunch" ∧
    (newExpense 0 "Lunch" "200" "Food").amount = .finite (litVal false 200 0 0) ∧
    (newExpense 0 "Lunch" "200" "Food").category = "Food" :=
  addExpense_valid_appends 0 "Lunch" "200" "Food" [] (litVal false 200 0 0)
    (by decide) (by decide) rfl (by norm_num [litVal, applyExponent])

/-- C2: for every invalid input — empty name, empty category, empty amount,
non-numeric amount, or parsed amount `<= 0` — `addExpense` fails with one of
the two validation errors and the entries list is returned exactly as it was
(no partial mutation). -/
theorem addExpense_invalid_unchanged (now : ℕ) (n a c : String) (es : List Expense)
    (h : n = "" ∨ c = "" ∨ a = "" ∨ parseFloat a = .nan ∨
      (parseFloat a).le (.finite 0) = true) :
    (addExpense now n a c es).1 = es ∧
      ((addExpense now n a c es).2 = .missingField ∨
        (addExpense now n a c es).2 = .invalidAmount) := by
  by_cases h1 : n = "" ∨ a = "" ∨ c = ""
  · rw [addExpense_missing h1]
    exact ⟨rfl, Or.inl rfl⟩
  · have hbad : (parseFloat a).isNaN = true ∨ (parseFloat a).le (.finite 0) = true := by
      rcases h with h | h | h | h | h
      · exact absurd (Or.inl h) h1
      · exact absurd (Or.inr (Or.inr h)) h1
      · exact absurd (Or.inr (Or.inl h)) h1
      · exact Or.inl (by rw [h]; rfl)
      · exact Or.inr h
    rw [addExpense_invalid h1 hbad]
    exact ⟨rfl, Or.inr rfl⟩

/-- C2 witness: an empty name with a parseable amount leaves the ledger as is. -/
theorem addExpense_invalid_unchanged_witness :
    (addExpense 0 "" "1" "Food" [newExpense 0 "Lunch" "200" "Food"]).1 =
        [newExpense 0 "Lunch" "200" "Food"] ∧
      ((addExpense 0 "" "1" "Food" [newExpense 0 "Lunch" "200" "Food"]).2 = .missingField ∨
        (addExpense 0 "" "1" "Food" [newExpense 0 "Lunch" "200" "Food"]).2 = .invalidAmount) :=
  addExpense_invalid_unchanged 0 "" "1" "Food" [newExpense 0 "Lunch" "200" "Food"]
    (Or.inl rfl)

/-- C3: `totalSpent` equals the arithmetic sum of the `amount` fields over the
entries (stated for the ledgers whose amounts are all finite rationals, the
only ones on which an arithmetic sum is meaningful), it returns 0 on the empty
ledger, and recomputing it without an intervening mutation yields the same
value (it is a pure function of the entries list). -/
theorem totalSpent_eq_sum (es : List Expense) (qs : List ℚ)
    (h : es.map Expense.amount = qs.map JSNum.finite) :
    totalSpent es = .finite qs.sum ∧ totalSpent [] = .finite 0 ∧
      totalSpent es = totalSpent es :=
  ⟨totalSpent_finite h, rfl, rfl⟩

/-- C3 witness: the spec scenario ledger 200 + 4900. -/
theorem totalSpent_eq_sum_witness :
    totalSpent
        [{ id := "1", name := "Lunch", amount := .finite 200, category := "Food", date := 1 },
         { id := "2", name := "Phone", amount := .finite 4900, category := "Shopping", date := 2 }] =
      .finite ([200, 4900] : List ℚ).sum ∧
    totalSpent [] = .finite 0 ∧
    totalSpent
        [{ id := "1", name := "Lunch", amount := .finite 200, category := "Food", date := 1 },
         { id := "2", name := "Phone", amount := .finite 4900, category := "Shopping", date := 2 }] =
      totalSpent
        [{ id := "1", name := "Lunch", amount := .finite 200, category := "Food", date := 1 },
         { id := "2", name := "Phone", amount := .finite 4900, category := "Shopping", date := 2 }] :=
  totalSpent_eq_sum _ [200, 4900] rfl

/-- C5: the missing-field check runs before the amount is parsed: whenever
some field is empty and the amount text is also unparseable or non-positive,
the reported error is `missingField`, not `invalidAmount`. -/
theorem missingField_before_invalidAmount (now : ℕ) (n a c : String) (es : List Expense)
    (hempty : n = "" ∨ a = "" ∨ c = "")
    (_hbad : (parseFloat a).isNaN = true ∨ (parseFloat a).le (.finite 0) = true) :
    (addExpense now n a c es).2 = .missingField := by
  rw [addExpense_missing hempty]

/-- C6 counterexample: the amount text "Infinity" parses to the non-finite
value `+Infinity`, yet `addExpense` accepts it (the code checks only
`isNaN(amount) || amount <= 0`, never `isFinite`), contradicting the claim
that every amount not denoting a positive finite number is rejected with
`invalidAmount`. -/
theorem infinity_amount_accepted :
    parseFloat "Infinity" = .posInf ∧
    addExpense 0 "a" "Infinity" "Food" [] =
      ([{ id := "0", name := "a", amount := .posInf, category := "Food", date := 0 }],
        .added { id := "0", name := "a", amount := .posInf, category := "Food", date := 0 }) :=
  ⟨rfl, rfl⟩

/-- C6 amended: with all three fields non-empty, `addExpense` fails with
`invalidAmount` exactly when the parsed amount is `NaN` or `<= 0` in the
JavaScript order; in particular a non-finite positive parse (`+Infinity`)
is accepted, not rejected. -/
theorem invalidAmount_iff (now : ℕ) (n a c : String) (es : List Expense)
    (hn : n ≠ "") (ha : a ≠ "") (hc : c ≠ "") :
    (addExpense now n a c es).2 = .invalidAmount ↔
      ((parseFloat a).isNaN = true ∨ (parseFloat a).le (.finite 0) = true) := by
  constructor
  · intro h2
    by_contra hbad
    push_neg at hbad
    have hva : validAmount (parseFloat a) :=
      ⟨Bool.not_eq_true _ ▸ hbad.1, Bool.not_eq_true _ ▸ hbad.2⟩
    rw [addExpense_success hn hc hva] at h2
    simp at h2
  · intro hbad
    rw [addExpense_invalid (by simp [hn, ha, hc]) hbad]

/-- C6 amended witness: the negative amount "-5" is rejected with
`invalidAmount`. -/
theorem invalidAmount_iff_witness :
    (addExpense 0 "a" "-5" "Food" []).2 = .invalidAmount ↔
      ((parseFloat "-5").isNaN = true ∨ (parseFloat "-5").le (.finite 0) = true) :=
  invalidAmount_iff 0 "a" "-5" "Food" [] (by decide) (by decide) (by decide)

/-- C7 counterexample: two successful appends made at the same `Date.now()`
millisecond (both at time 0) produce two entries with the identical id "0",
contradicting the claim that ids are unique for every sequence of successful
appends. -/
theorem duplicate_ids_same_millisecond :
    (addExpense 0 "b" "2" "Food" (addExpense 0 "a" "1" "Food" []).1).1.map Expense.id
      = ["0", "0"] := by
  have hva1 : validAmount (parseFloat "1") :=
    validAmount_of_pos (show parseFloat "1" = .finite (litVal false 1 0 0) from rfl)
      (by norm_num [litVal, applyExponent])
  have hva2 : validAmount (parseFloat "2") :=
    validAmount_of_pos (show parseFloat "2" = .finite (litVal false 2 0 0) from rfl)
      (by norm_num [litVal, applyExponent])
  rw [@addExpense_success 0 "a" "1" "Food" [] (by decide) (by decide) hva1]
  rw [show ([] ++ [newExpense 0 "a" "1" "Food"],
      AddResult.added (newExpense 0 "a" "1" "Food")).1 = [newExpense 0 "a" "1" "Food"]
    from rfl]
  rw [@addExpense_success 0 "b" "2" "Food" [newExpense 0 "a" "1" "Food"]
    (by decide) (by decide) hva2]
  rfl

/-- C7 amended: provided the `Date.now()` timestamps of the appends are
pairwise distinct (which sequential user interactions in distinct
milliseconds guarantee), no two entries of the resulting ledger have equal
id fields. -/
theorem unique_ids_of_distinct_timestamps (ops : List AddOp)
    (hops : ops.Pairwise (fun o1 o2 => o1.now ≠ o2.now)) :
    (runAdds ops []).Pairwise (fun e1 e2 => e1.id ≠ e2.id) :=
  runAdds_pairwise_ids ops [] hops
    (fun e he => absurd he (List.not_mem_nil e)) List.Pairwise.nil

/-- C7 amended witness: two appends at distinct milliseconds. -/
theorem unique_ids_of_distinct_timestamps_witness :
    (runAdds [⟨0, "a", "1", "Food"⟩, ⟨1, "b", "2", "Food"⟩] []).Pairwise
      (fun e1 e2 => e1.id ≠ e2.id) :=
  unique_ids_of_distinct_timestamps _ (by simp [List.pairwise_cons])

/-- C8: `addExpense` never checks the category against the enumerated set:
for every non-empty name, amount text parsing to a positive finite number,
and non-empty category string — whether or not it belongs to `categories` —
the call succeeds and appends an entry carrying that category verbatim. -/
theorem category_not_validated (now : ℕ) (n a c : String) (es : List Expense) (q : ℚ)
    (hn : n ≠ "") (hc : c ≠ "") (hq : parseFloat a = .finite q) (hpos : 0 < q) :
    (addExpense now n a c es).1 = es ++ [newExpense now n a c] ∧
    (newExpense now n a c).category = c := by
  rw [addExpense_success hn hc (validAmount_of_pos hq hpos)]
  exact ⟨rfl, rfl⟩

/-- C8 witness: the category "Rent" is outside the enumerated set and is
accepted verbatim. -/
theorem category_not_validated_witness :
    "Rent" ∉ categories ∧
      ((addExpense 5 "gig" "10" "Rent" []).1 = [] ++ [newExpense 5 "gig" "10" "Rent"] ∧
        (newExpense 5 "gig" "10" "Rent").category = "Rent") :=
  ⟨by decide,
    category_not_validated 5 "gig" "10" "Rent" [] (litVal false 10 0 0) (by decide)
      (by decide) rfl (by norm_num [litVal, applyExponent])⟩

/-- C5 witness: empty name together with an unparseable amount. -/
theorem missingField_before_invalidAmount_witness :
    (addExpense 0 "" "abc" "Food" []).2 = .missingField :=
  missingField_before_invalidAmount 0 "" "abc" "Food" [] (Or.inl rfl)
    (Or.inl (by rfl))

/-- C4: `isWithinBudget` is true iff the total spent is a finite value at
most the ceiling (spent exactly equal to the ceiling counts as within budget
since the code compares with `<=`); the rendered overage is exactly
`totalSpent - monthlyBudget` and is strictly positive whenever the ledger is
not within budget.  The hypothesis restricts to ledgers whose amounts passed
validation, which every reachable ledger state satisfies. -/
theorem withinBudget_iff (es : List Expense)
    (h : ∀ e ∈ es, validAmount e.amount) :
    (isWithinBudget es = true ↔
      ∃ q : ℚ, totalSpent es = .finite q ∧ q ≤ monthlyBudget) ∧
    overBudgetAmount es = (totalSpent es).sub (.finite monthlyBudget) ∧
    (isWithinBudget es = false →
      (JSNum.finite 0).lt (overBudgetAmount es) = true) := by
  refine ⟨?_, rfl, ?_⟩
  · rcases totalSpent_shape h with hs | ⟨q, hs, hq⟩
    · have hwb : isWithinBudget es = false := by
        unfold isWithinBudget
        rw [hs]
        rfl
      rw [hwb]
      constructor
      · intro hct
        exact absurd hct (by decide)
      · rintro ⟨q, hfin, -⟩
        rw [hs] at hfin
        simp at hfin
    · unfold isWithinBudget
      rw [hs]
      simp only [JSNum.le, decide_eq_true_eq]
      constructor
      · intro hle
        exact ⟨q, rfl, hle⟩
      · rintro ⟨q', hq', hle⟩
        injection hq' with h'
        rw [h']
        exact hle
  · intro hfalse
    rcases totalSpent_shape h with hs | ⟨q, hs, hq⟩
    · unfold overBudgetAmount
      rw [hs]
      rfl
    · unfold isWithinBudget at hfalse
      rw [hs] at hfalse
      simp only [JSNum.le, decide_eq_false_iff_not] at hfalse
      unfold overBudgetAmount
      rw [hs]
      show (JSNum.finite 0).lt (.finite (q - monthlyBudget)) = true
      simp only [JSNum.lt, decide_eq_true_eq]
      have := lt_of_not_le hfalse
      linarith

/-- C4 witness: on the 5100-total ledger the overage is strictly positive. -/
theorem withinBudget_iff_witness :
    (JSNum.finite 0).lt (overBudgetAmount demoLedger) = true := by
  have h : ∀ e ∈ demoLedger, validAmount e.amount := by
    intro e he
    fin_cases he <;>
      exact ⟨rfl, by simp only [JSNum.le, decide_eq_false_iff_not]; norm_num⟩
  have hts : totalSpent demoLedger = .finite 5100 := by
    rw [@totalSpent_finite demoLedger [200, 4900] rfl]
    norm_num
  have hwb : isWithinBudget demoLedger = false := by
    unfold isWithinBudget
    rw [hts]
    simp only [JSNum.le, decide_eq_false_iff_not, monthlyBudget]
    norm_num
  exact (withinBudget_iff demoLedger h).2.2 hwb

/-- C9: the internal usage quotient is exactly `totalSpent / monthlyBudget`,
unclamped, while the rendered percentage
`Math.min(100, Math.round((totalSpent / monthlyBudget) * 100))` always lies
in the range [0, 100] (for ledgers whose amounts passed validation, i.e.
every reachable ledger state, on which the total is nonnegative or
`+Infinity`). -/
theorem usage_quotient_and_percent (es : List Expense)
    (h : ∀ e ∈ es, validAmount e.amount) :
    budgetUsage es = (totalSpent es).div (.finite monthlyBudget) ∧
    (JSNum.finite 0).le (budgetUsagePercent es) = true ∧
    (budgetUsagePercent es).le (.finite 100) = true := by
  refine ⟨rfl, ?_⟩
  rcases totalSpent_shape h with hs | ⟨q, hs, hq⟩
  · have hp : budgetUsagePercent es = .finite 100 := by
      unfold budgetUsagePercent
      rw [hs]
      rw [show JSNum.posInf.div (.finite monthlyBudget) = .posInf from by
        simp only [JSNum.div]
        rw [if_neg]
        norm_num [monthlyBudget]]
      rw [show JSNum.posInf.mul (.finite 100) = .posInf from by
        simp only [JSNum.mul]
        rw [if_neg (by norm_num), if_neg (by norm_num)]]
      rfl
    rw [hp]
    constructor
    · simp only [JSNum.le, decide_eq_true_eq]
      norm_num
    · simp only [JSNum.le, decide_eq_true_eq]
      norm_num
  · have hB : (0:ℚ) < monthlyBudget := by norm_num [monthlyBudget]
    have hdiv : (JSNum.finite q).div (.finite monthlyBudget) =
        .finite (q / monthlyBudget) := by
      simp only [JSNum.div]
      rw [if_neg (by norm_num [monthlyBudget])]
    have hround : budgetUsagePercent es =
        JSNum.min (.finite 100) (.finite ((⌊q / monthlyBudget * 100 + 1 / 2⌋ : ℤ) : ℚ)) := by
      unfold budgetUsagePercent
      rw [hs, hdiv]
      rfl
    have hx : (0:ℚ) ≤ q / monthlyBudget * 100 + 1 / 2 := by
      have h1 : (0:ℚ) ≤ q / monthlyBudget := div_nonneg hq (le_of_lt hB)
      have h2 : (0:ℚ) ≤ q / monthlyBudget * 100 := mul_nonneg h1 (by norm_num)
      linarith
    have hr0 : (0:ℚ) ≤ ((⌊q / monthlyBudget * 100 + 1 / 2⌋ : ℤ) : ℚ) := by
      have hfl : (0:ℤ) ≤ ⌊q / monthlyBudget * 100 + 1 / 2⌋ :=
        Int.le_floor.mpr (by push_cast; linarith)
      exact_mod_cast hfl
    rw [hround]
    unfold JSNum.min
    rw [if_neg (by simp [JSNum.isNaN])]
    by_cases hcmp : (100:ℚ) ≤ ((⌊q / monthlyBudget * 100 + 1 / 2⌋ : ℤ) : ℚ)
    · rw [if_pos (by simp only [JSNum.le, decide_eq_true_eq]; exact hcmp)]
      constructor
      · simp only [JSNum.le, decide_eq_true_eq]
        norm_num
      · simp only [JSNum.le, decide_eq_true_eq]
        norm_num
    · rw [if_neg (by simp only [JSNum.le, decide_eq_true_eq]; exact hcmp)]
      constructor
      · simp only [JSNum.le, decide_eq_true_eq]
        exact hr0
      · simp only [JSNum.le, decide_eq_true_eq]
        exact le_of_lt (lt_of_not_le hcmp)

/-- C9 witness: the 5100-total ledger (usage 102%, displayed as 100). -/
theorem usage_quotient_and_percent_witness :
    budgetUsage demoLedger = (totalSpent demoLedger).div (.finite monthlyBudget) ∧
    (JSNum.finite 0).le (budgetUsagePercent demoLedger) = true ∧
    (budgetUsagePercent demoLedger).le (.finite 100) = true :=
  usage_quotient_and_percent demoLedger (by
    intro e he
    fin_cases he <;>
      exact ⟨rfl, by simp only [JSNum.le, decide_eq_false_iff_not]; norm_num⟩)

/-- C10 counterexample: the code accepts the amount text "Infinity"
(see the C6 analysis), after which `totalSpent` is `+Infinity`; a further
successful append (amount "1") leaves the total at `+Infinity`, so
`totalSpent` is not strictly monotonically increasing across successful
appends as the claim states. -/
theorem total_not_strictly_increasing :
    totalSpent (addExpense 0 "a" "Infinity" "Food" []).1 = .posInf ∧
    (addExpense 1 "b" "1" "Food" (addExpense 0 "a" "Infinity" "Food" []).1).2
        = .added (newExpense 1 "b" "1" "Food") ∧
    (totalSpent (addExpense 0 "a" "Infinity" "Food" []).1).lt
        (totalSpent (addExpense 1 "b" "1" "Food" (addExpense 0 "a" "Infinity" "Food" []).1).1)
      = false := by
  have hva : validAmount (parseFloat "1") :=
    validAmount_of_pos (show parseFloat "1" = .finite (litVal false 1 0 0) from rfl)
      (by norm_num [litVal, applyExponent])
  have h2 := @addExpense_success 1 "b" "1" "Food" (addExpense 0 "a" "Infinity" "Food" []).1
    (by decide) (by decide) hva
  refine ⟨rfl, ?_, ?_⟩
  · rw [h2]
  · rw [h2]
    rfl

/-- C10 amended: every entry of a ledger reachable by `addExpense` passed
validation — its amount is accepted (positive in the JavaScript order, with
`+Infinity` possible) and its name and category are non-empty — and this
predicate is preserved by any further run of adds; `totalSpent` is `0` only
on the empty ledger; and the total strictly increases across a successful
append whenever the ledger's amounts and the new amount are finite. -/
theorem ledger_invariants :
    (∀ (ops : List AddOp) (es : List Expense), (∀ e ∈ es, ValidEntry e) →
      ∀ e ∈ runAdds ops es, ValidEntry e) ∧
    (∀ ops : List AddOp, totalSpent (runAdds ops []) = .finite 0 → runAdds ops [] = []) ∧
    (∀ (now : ℕ) (n a c : String) (es : List Expense) (qs : List ℚ) (q : ℚ),
      es.map Expense.amount = qs.map JSNum.finite → parseFloat a = .finite q →
      n ≠ "" → c ≠ "" → 0 < q →
      (totalSpent es).lt (totalSpent (addExpense now n a c es).1) = true) := by
  refine ⟨runAdds_valid, ?_, ?_⟩
  · intro ops h0
    by_contra hne
    have hval : ∀ e ∈ runAdds ops [], validAmount e.amount := fun e he =>
      (runAdds_valid ops [] (fun e' he' => absurd he' (List.not_mem_nil e')) e he).1
    rcases totalSpent_pos hne hval with hs | ⟨q, hs, hq⟩
    · rw [h0] at hs
      simp at hs
    · rw [h0] at hs
      injection hs with h'
      rw [← h'] at hq
      exact absurd hq (lt_irrefl 0)
  · intro now n a c es qs q hmap hq hn hc hpos
    rw [addExpense_success hn hc (validAmount_of_pos hq hpos)]
    rw [show (es ++ [newExpense now n a c], AddResult.added (newExpense now n a c)).1 =
        es ++ [newExpense now n a c] from rfl]
    have hmap2 : (es ++ [newExpense now n a c]).map Expense.amount =
        (qs ++ [q]).map JSNum.finite := by
      simp [hmap, newExpense, hq]
    rw [@totalSpent_finite es qs hmap,
      @totalSpent_finite (es ++ [newExpense now n a c]) (qs ++ [q]) hmap2]
    simp only [JSNum.lt, decide_eq_true_eq, List.sum_append, List.sum_cons, List.sum_nil]
    linarith

/-- C10 amended witness: appending 50 to a 200-total ledger strictly
increases the total. -/
theorem ledger_invariants_witness :
    (totalSpent [newExpense 0 "Lunch" "200" "Food"]).lt
      (totalSpent (addExpense 1 "Coffee" "50" "Food" [newExpense 0 "Lunch" "200" "Food"]).1)
      = true :=
  ledger_invariants.2.2 1 "Coffee" "50" "Food" [newExpense 0 "Lunch" "200" "Food"]
    [litVal false 200 0 0] (litVal false 50 0 0) rfl rfl (by decide) (by decide)
    (by norm_num [litVal, applyExponent])

end StudentFinance
